import Mathlib

/-!
Verification development for a chat-driven CI/CD pipeline orchestrator.

The Python sources are shallowly embedded here:
* `shared/logger.py`   — line format, `get_job_logs`, `get_job_status`;
* `shared/yaml_parser.py` — manifest validation (`YAMLParser.parse`),
  `extract_step_info`;
* `worker/docker_executor.py` — `_convert_memory_limit`;
* `worker/job_processor.py` — the container branch of `process_job`;
* `worker/job_executors.py` — `JobGroupExecutor.execute` and
  `ConfirmationJobExecutor.handle_callback`.

Python strings are modelled as Lean `String` / `List Char`; Python's `in`
substring test, `str.split`, `str.strip`, `str.lower` and `int(...)` are
re-implemented structurally below so that all definitions compute.
-/

namespace CICD

/-! ## Python string primitives -/

/-- `hasPrefixL s p` is true when the char list `p` is a prefix of `s`. -/
def hasPrefixL : List Char → List Char → Bool
  | _, [] => true
  | [], _ :: _ => false
  | c :: cs, p :: ps => c == p && hasPrefixL cs ps

/-- `containsL pat s`: does `pat` occur as a contiguous substring of `s`?
Models Python's `pat in s`. -/
def containsL (pat : List Char) : List Char → Bool
  | [] => hasPrefixL [] pat
  | c :: cs => hasPrefixL (c :: cs) pat || containsL pat cs

/-- Python's `pat in line` on strings. -/
def strContains (line pat : String) : Bool :=
  containsL pat.data line.data

/-- Python's `s.startswith(pre)`. -/
def pyStartsWith (s pre : String) : Bool :=
  hasPrefixL s.data pre.data

/-- Strip leading and trailing whitespace, as Python's `str.strip()`. -/
def pyStrip (l : List Char) : List Char :=
  ((l.dropWhile Char.isWhitespace).reverse.dropWhile Char.isWhitespace).reverse

/-- ASCII lower-casing of one character, as Python's `str.lower()` acts on
the ASCII range (the only range the sources use). -/
def asciiToLower (c : Char) : Char :=
  if 65 ≤ c.toNat ∧ c.toNat ≤ 90 then Char.ofNat (c.toNat + 32) else c

/-- ASCII decimal digit test (code points 48 to 57). -/
def isDigitC (c : Char) : Bool :=
  48 ≤ c.toNat && c.toNat ≤ 57

/-- Numeric value of a list of decimal digit characters (most significant
first). -/
def digitsToNat (l : List Char) : Nat :=
  l.foldl (fun acc c => acc * 10 + (c.toNat - '0'.toNat)) 0

/-- All characters are decimal digits. -/
def allDigits (l : List Char) : Bool :=
  l.all isDigitC

/-- Python's `int(s)` on a char list: strip whitespace, optional sign, then
decimal digits; any other shape raises `ValueError`, modelled as `none`. -/
def pyIntL (s : List Char) : Option Int :=
  match pyStrip s with
  | [] => none
  | c :: ds =>
    if c == '+' then
      if !ds.isEmpty && allDigits ds then some (Int.ofNat (digitsToNat ds)) else none
    else if c == '-' then
      if !ds.isEmpty && allDigits ds then some (-(Int.ofNat (digitsToNat ds))) else none
    else if allDigits (c :: ds) then some (Int.ofNat (digitsToNat (c :: ds))) else none

/-- Python's `int(s)` on a string. -/
def pyInt (s : String) : Option Int :=
  pyIntL s.data

/-- `breakAtChar c s` splits `s` at the first occurrence of `c`, returning
the part before and the part after, or `none` when `c` does not occur. -/
def breakAtChar (c : Char) : List Char → Option (List Char × List Char)
  | [] => none
  | x :: xs =>
    if x == c then some ([], xs)
    else (breakAtChar c xs).map (fun p => (x :: p.1, p.2))

/-- Python's `s.split(c, 2)`: at most two splits, the tail keeps any further
occurrences of `c`. -/
def pySplit2 (c : Char) (s : List Char) : List (List Char) :=
  match breakAtChar c s with
  | none => [s]
  | some (a, r) =>
    match breakAtChar c r with
    | none => [a, r]
    | some (b, r2) => [a, b, r2]

/-- Split a char list on newline characters, as Python's `split('\n')`. -/
def splitOnNl : List Char → List (List Char)
  | [] => [[]]
  | x :: xs =>
    let r := splitOnNl xs
    if x == '\n' then [] :: r
    else
      match r with
      | [] => [[x]]
      | h :: t => (x :: h) :: t

/-- Whether a char list has a non-whitespace character: Python's truthiness
of `line.strip()`. -/
def hasNonWs (l : List Char) : Bool :=
  l.any (fun c => !c.isWhitespace)

/-- First whitespace-delimited token, as Python's `s.split()[0]` (used on a
non-empty split result). -/
def firstToken (l : List Char) : List Char :=
  (l.dropWhile Char.isWhitespace).takeWhile (fun c => !c.isWhitespace)

/-- The suffix of `s` after the first occurrence of `pat`, or `none` when
`pat` (non-empty in all uses) does not occur. -/
def afterFirst (pat : List Char) : List Char → Option (List Char)
  | [] => none
  | c :: cs =>
    if hasPrefixL (c :: cs) pat then some ((c :: cs).drop pat.length)
    else afterFirst pat cs

/-- The prefix of `s` up to (excluding) the first occurrence of `pat`, or
all of `s` when `pat` does not occur.  Together with `afterFirst` this
models `s.split(pat)[1]`: the segment between the first and second
occurrence of `pat`. -/
def beforeFirst (pat : List Char) : List Char → List Char
  | [] => []
  | c :: cs =>
    if hasPrefixL (c :: cs) pat then []
    else c :: beforeFirst pat cs

/-! ## Structured logger (`shared/logger.py`)

`Logger._format_log_line` builds one physical line; the timestamp is an
opaque input to the embedding.  `get_job_logs` and `get_job_status` scan the
file, modelled as the list of its lines. -/

/-- `Logger._format_log_line`: `[ts] JOB:<id> STEP:<name> <KIND>:<content>`
with an optional ` EXIT:<code>` suffix. -/
def format_log_line (ts : String) (job_id : Nat) (step_name : String)
    (log_type : String) (content : String) (exit_code : Option Int) : String :=
  let line := "[" ++ ts ++ "] JOB:" ++ toString job_id ++ " STEP:" ++ step_name
      ++ " " ++ log_type ++ ":" ++ content
  match exit_code with
  | some c => line ++ " EXIT:" ++ toString c
  | none => line

/-- `Logger.get_job_logs`: newline-join of every file line that contains the
substring `JOB:<id>` (note: the source includes no trailing space in the
pattern). -/
def get_job_logs (file : List String) (job_id : Nat) : String :=
  String.intercalate "\n"
    (file.filter (fun line => strContains line ("JOB:" ++ toString job_id)))

/-- One scan step of `Logger.get_job_status`: if the line contains
`JOB:<id>` and `STATUS:`, extract `line.split("STATUS:")[1].split()[0]` and
make it the new last status when non-empty. -/
def statusScanStep (job_id : Nat) (acc : Option String) (line : String) : Option String :=
  if strContains line ("JOB:" ++ toString job_id) && strContains line "STATUS:" then
    match afterFirst "STATUS:".data line.data with
    | none => acc
    | some rest =>
      let seg := beforeFirst "STATUS:".data rest
      let tok := firstToken seg
      if tok.isEmpty then acc else some (String.mk tok)
  else acc

/-- `Logger.get_job_status`: last STATUS value on a line containing
`JOB:<id>` (again no trailing space in the pattern). -/
def get_job_status (file : List String) (job_id : Nat) : Option String :=
  file.foldl (statusScanStep job_id) none

/-! ## YAML values and the manifest parser (`shared/yaml_parser.py`)

`yaml.safe_load` is a library call; its result — the Python object tree —
is the embedding's input, as the inductive `YVal`.  Dictionaries are
association lists in key-insertion order with distinct keys. -/

/-- A YAML value after `yaml.safe_load`. -/
inductive YVal where
  | str (s : String)
  | int (n : Int)
  | bool (b : Bool)
  | list (xs : List YVal)
  | map (kvs : List (String × YVal))
  | null

/-- Python `k in d` on a dict. -/
def containsKey (k : String) (kvs : List (String × YVal)) : Bool :=
  kvs.any (fun p => p.1 == k)

/-- Python `d.get(k)` on a dict. -/
def lookupY (k : String) (kvs : List (String × YVal)) : Option YVal :=
  (kvs.find? (fun p => p.1 == k)).map (fun p => p.2)

/-- Python `v == s` between a YAML value and a string literal. -/
def yEqStr (v : YVal) (s : String) : Bool :=
  match v with
  | .str t => t == s
  | _ => false

/-- The `PipelineConfig` object built by `YAMLParser.parse`. -/
structure PipelineConfig where
  name : YVal
  jobs : List (String × YVal)

/-- `PipelineConfig.get_job`. -/
def PipelineConfig.get_job (p : PipelineConfig) (job_name : String) : Option YVal :=
  lookupY job_name p.jobs

/-- `PipelineConfig.list_jobs`. -/
def PipelineConfig.list_jobs (p : PipelineConfig) : List String :=
  p.jobs.map (fun p => p.1)

/-- Validation of one step mapping inside a container job: it must be a
dict containing the key `run`. -/
def validateStep (st : YVal) : Except String Unit :=
  match st with
  | .map kvs =>
    if containsKey "run" kvs then .ok () else .error "step must contain field run"
  | _ => .error "step must be a mapping"

/-- Step-by-step validation loop over a container job's `steps` list. -/
def validateSteps : List YVal → Except String Unit
  | [] => .ok ()
  | st :: rest => do
    validateStep st
    validateSteps rest

/-- Does a step supply its own image?  The source tests
`isinstance(step, dict) and "image" in step`. -/
def stepHasImage (st : YVal) : Bool :=
  match st with
  | .map kvs => containsKey "image" kvs
  | _ => false

/-- Validation of a container (`default`) job: `steps` present and a list;
when the job has no `image`, at least one step must have an `image` key;
every step is a dict with a `run` key. -/
def validateContainer (kvs : List (String × YVal)) : Except String Unit :=
  if !containsKey "steps" kvs then .error "job must contain field steps"
  else
    match lookupY "steps" kvs with
    | some (.list steps) =>
      if !containsKey "image" kvs && !(steps.any stepHasImage) then
        .error "job must contain image at job level or in steps"
      else validateSteps steps
    | _ => .error "job steps must be a list"

/-- Validation of one job entry of the `jobs` mapping, per its `type`. -/
def validateJob (cfg : YVal) : Except String Unit :=
  match cfg with
  | .map kvs =>
    let jtype := (lookupY "type" kvs).getD (.str "default")
    if yEqStr jtype "timer" then
      if containsKey "duration" kvs then .ok ()
      else .error "timer job must contain field duration"
    else if yEqStr jtype "confirmation" then
      if containsKey "message" kvs then .ok ()
      else .error "confirmation job must contain field message"
    else if yEqStr jtype "job_group" then
      if containsKey "jobs" kvs || containsKey "job_groups" kvs then .ok ()
      else .error "job_group must contain jobs or job_groups"
    else validateContainer kvs
  | _ => .error "job must be a mapping"

/-- The validation loop of `YAMLParser.parse` over `jobs.items()`. -/
def validateJobs : List (String × YVal) → Except String Unit
  | [] => .ok ()
  | (_, c) :: rest => do
    validateJob c
    validateJobs rest

/-- `YAMLParser.parse`, from the loaded YAML value onwards.  A raised
`ValueError` is modelled as `.error`.  Note: the source performs no
cross-reference check on group entries and no cycle check. -/
def parse (config : YVal) : Except String PipelineConfig :=
  match config with
  | .map kvs =>
    if !containsKey "name" kvs then .error "missing required field name"
    else if !containsKey "jobs" kvs then .error "missing required field jobs"
    else
      match lookupY "jobs" kvs with
      | some (.map jobs) => do
        validateJobs jobs
        pure ⟨(lookupY "name" kvs).getD .null, jobs⟩
      | _ => .error "field jobs must be a mapping"
  | _ => .error "configuration must be a mapping"

/-- Is an `Except` value a success? -/
def isOk {ε α : Type} : Except ε α → Bool
  | .ok _ => true
  | .error _ => false

/-- A step dictionary as `extract_step_info` reads it: the four keys it
queries, each possibly absent. -/
structure StepDef where
  name : Option String
  image : Option String
  run : Option String
  env : List (String × String)
  deriving DecidableEq, Repr

/-- The resolved step handed to the Docker executor. -/
structure StepInfo where
  name : String
  image : String
  run : String
  env : List (String × String)
  deriving DecidableEq, Repr

/-- `YAMLParser.extract_step_info`: name defaults to `unnamed`, image
inherits from the job; a missing or empty resolved image raises
`ValueError` (modelled as `.error`). -/
def extract_step_info (step : StepDef) (job_image : Option String) : Except String StepInfo :=
  let step_name := step.name.getD "unnamed"
  let step_image := match step.image with
    | some i => some i
    | none => job_image
  match step_image with
  | none => .error ("step " ++ step_name ++ " has no image and job has no base image")
  | some img =>
    if img == "" then .error ("step " ++ step_name ++ " has no image and job has no base image")
    else .ok ⟨step_name, img, step.run.getD "", step.env⟩

/-! ## Memory-limit parsing (`worker/docker_executor.py`) -/

/-- Python's `s.endswith(suf)`. -/
def pyEndsWith (s suf : List Char) : Bool :=
  hasPrefixL s.reverse suf.reverse

/-- `DockerExecutor._convert_memory_limit`: lower-case and strip, then a
`k`/`m`/`g` suffix (checked in that order) multiplies the prefix `[:-1]` by
1024 / 1024² / 1024³; no suffix means raw bytes.  `int(...)` failures are
`none`. -/
def convert_memory_limit (s : String) : Option Int :=
  let t := pyStrip (s.data.map asciiToLower)
  if pyEndsWith t ['k'] then (pyIntL t.dropLast).map (fun n => n * 1024)
  else if pyEndsWith t ['m'] then (pyIntL t.dropLast).map (fun n => n * (1024 * 1024))
  else if pyEndsWith t ['g'] then (pyIntL t.dropLast).map (fun n => n * (1024 * 1024 * 1024))
  else pyIntL t

/-! ## Confirmation-button callback (`ConfirmationJobExecutor.handle_callback`)

The pending-confirmation table is modelled by its key set; the handler's
return value and raised exceptions are what the claims concern. -/

/-- The dict `handle_callback` returns on a matching registration. -/
structure CallbackResult where
  action : String
  job_id : Int
  job_name : String
  deriving DecidableEq, Repr

/-- `ConfirmationJobExecutor.handle_callback`: split the data on `_` at
most twice; `int(parts[1])` may raise `ValueError` (modelled as `.error`);
a missing registration or an unrecognised shape returns `None`. -/
def handle_callback (pending : List String) (callback_data : String) :
    Except String (Option CallbackResult) :=
  if pyStartsWith callback_data "confirm_" then
    match pySplit2 '_' callback_data.data with
    | [_, p1, p2] =>
      match pyIntL p1 with
      | none => .error "ValueError: invalid literal for int"
      | some jid =>
        let job_name := String.mk p2
        let key := toString jid ++ "_" ++ job_name
        if pending.contains key then .ok (some ⟨"confirm", jid, job_name⟩)
        else .ok none
    | _ => .ok none
  else if pyStartsWith callback_data "cancel_" then
    match pySplit2 '_' callback_data.data with
    | [_, p1, p2] =>
      match pyIntL p1 with
      | none => .error "ValueError: invalid literal for int"
      | some jid =>
        let job_name := String.mk p2
        let key := toString jid ++ "_" ++ job_name
        if pending.contains key then .ok (some ⟨"cancel", jid, job_name⟩)
        else .ok none
    | _ => .ok none
  else .ok none

/-! ## Job group executor (`JobGroupExecutor.execute`)

A group entry of the `jobs` / `job_groups` lists is a bare string, a dict
with optional `name` and `is_necessary`, or anything else (skipped by the
source's `continue`).  Awaiting a finished child yields a result dict, a
`CancelledError`, or some other exception; that outcome is an input to the
embedding.  `asyncio.wait` with `return_when=ALL_COMPLETED` returns only
once every task has completed, with an empty pending set. -/

/-- One entry of a group's `jobs` or `job_groups` list. -/
inductive GroupEntry where
  | str (name : String)
  | map (name : Option String) (is_necessary : Bool)
  | other
  deriving DecidableEq, Repr

/-- What awaiting one completed child task yields. -/
inductive ChildOutcome where
  | result (status : String)
  | cancelledErr
  | exc
  deriving DecidableEq, Repr

/-- A spawned child task: its necessity flag paired with the outcome the
await will produce. -/
abbrev GTask := Bool × ChildOutcome

/-- The group's aggregate: `completed`, `failed`, `status`. -/
structure GroupAgg where
  completed : Nat
  failed : Nat
  status : String
  deriving DecidableEq, Repr

/-- `asyncio.wait(tasks, return_when=asyncio.ALL_COMPLETED)` on a
*non-empty* task set: resumes only after every task has completed, so
`done` is all of them and `pending` is empty.  On an empty set the real
call raises `ValueError` instead; `asyncioWaitChecked` models the call
including that error path. -/
def asyncioWaitAllCompleted (tasks : List GTask) : List GTask × List GTask :=
  (tasks, [])

/-- `asyncio.wait(tasks, return_when=asyncio.ALL_COMPLETED)` including the
empty-set behavior: CPython raises
`ValueError('Set of Tasks/Futures is empty.')` when `tasks` is empty. -/
def asyncioWaitChecked (tasks : List GTask) : Except String (List GTask × List GTask) :=
  if tasks.isEmpty then .error "ValueError: Set of Tasks/Futures is empty."
  else .ok (asyncioWaitAllCompleted tasks)

/-- Processing of one completed task in the result loop.  The state is the
aggregate plus the list of tasks cancellation was issued to; on a necessary
failure (result branch or exception branch) the source cancels everything
in `pending`. -/
def groupStep (pending : List GTask) :
    GroupAgg × List GTask → GTask → GroupAgg × List GTask
  | (agg, canc), (is_necessary, oc) =>
    match oc with
    | .result s =>
      if s == "success" then
        ({ agg with completed := agg.completed + 1 }, canc)
      else if is_necessary then
        ({ agg with failed := agg.failed + 1, status := "failed" }, canc ++ pending)
      else
        ({ agg with failed := agg.failed + 1 }, canc)
    | .cancelledErr =>
      if is_necessary then
        ({ agg with failed := agg.failed + 1, status := "failed" }, canc)
      else
        ({ agg with failed := agg.failed + 1 }, canc)
    | .exc =>
      if is_necessary then
        ({ agg with failed := agg.failed + 1, status := "failed" }, canc ++ pending)
      else
        ({ agg with failed := agg.failed + 1 }, canc)

/-- The waiting-and-aggregation phase of `JobGroupExecutor.execute` for a
non-empty task list (the only case where `asyncio.wait` returns): wait for
all tasks, then fold the result loop.  The second component is the list of
tasks that were issued a cancellation. -/
def jobGroupRun (tasks : List GTask) : GroupAgg × List GTask :=
  let wp := asyncioWaitAllCompleted tasks
  wp.1.foldl (groupStep wp.2) (⟨0, 0, "success"⟩, [])

/-- Task creation for one entry of the `jobs` list: strings and dicts spawn
a `process_job_func` task (a dict's missing `name` is passed on as `None`);
anything else is skipped. -/
def taskForJobEntry : GroupEntry → Option (Option String × Bool)
  | .str n => some (some n, false)
  | .map n nec => some (n, nec)
  | .other => none

/-- Does a looked-up job config pass
`group_config and group_config.get("type") == "job_group"`?  Parse output
only ever stores mappings as job configs, so the non-mapping case (which
would raise `AttributeError` in the source) does not arise. -/
def isJobGroupCfg : Option YVal → Bool
  | some (.map kvs) => !kvs.isEmpty && yEqStr ((lookupY "type" kvs).getD .null) "job_group"
  | _ => false

/-- Task creation for one entry of the `job_groups` list: spawn a recursive
group task only when the entry name resolves to an existing `job_group`
job; otherwise nothing is spawned. -/
def taskForGroupEntry (p : PipelineConfig) : GroupEntry → Option (String × Bool)
  | .str n => if isJobGroupCfg (p.get_job n) then some (n, false) else none
  | .map (some n) nec => if isJobGroupCfg (p.get_job n) then some (n, nec) else none
  | .map none _ => none
  | .other => none

/-- The task list built from a group's `job_groups` entries. -/
def buildGroupTasks (p : PipelineConfig) (entries : List GroupEntry) : List (String × Bool) :=
  entries.foldr (fun e acc =>
    match taskForGroupEntry p e with
    | some t => t :: acc
    | none => acc) []

/-- The task list built from a group's `jobs` entries. -/
def buildJobTasks (entries : List GroupEntry) : List (Option String × Bool) :=
  entries.foldr (fun e acc =>
    match taskForJobEntry e with
    | some t => t :: acc
    | none => acc) []

/-- `JobGroupExecutor.execute`, end to end: build the child tasks (jobs
first, then job_groups), obtain each child's outcome from the environment
`oracle`, wait for all of them and aggregate.  When no entry spawned a
task, `asyncio.wait` is called on an empty set and its `ValueError`
propagates out of `execute` (modelled as `.error`). -/
def jobGroupExecute (p : PipelineConfig) (oracle : Option String × Bool → ChildOutcome)
    (jobsL groupsL : List GroupEntry) : Except String GroupAgg :=
  let tasks := buildJobTasks jobsL ++ (buildGroupTasks p groupsL).map (fun t => (some t.1, t.2))
  match asyncioWaitChecked (tasks.map (fun t => (t.2, oracle t))) with
  | .error e => .error e
  | .ok wp => .ok (wp.1.foldl (groupStep wp.2) (⟨0, 0, "success"⟩, [])).1

/-! ## Container job processing (`JobProcessor.process_job`, default branch)

The Docker daemon is the environment: `pull` says whether an image can be
acquired, `exec` gives the exit code and combined output of running a
resolved step. -/

/-- A structured log record; `format_log_line` renders it.  `exit` is set
only by `log_step_completion`. -/
structure LogRec where
  job_id : Nat
  step : String
  kind : String
  content : String
  exit : Option Int
  deriving DecidableEq, Repr

/-- `Logger.log_status` as a record. -/
def statusRec (job_id : Nat) (step status : String) : LogRec :=
  ⟨job_id, step, "STATUS", status, none⟩

/-- `Logger.log_error` as a record. -/
def errorRec (job_id : Nat) (step msg : String) : LogRec :=
  ⟨job_id, step, "ERROR", msg, none⟩

/-- `Logger.log_step_completion` as a record: STATUS `success` when the
exit code is 0, else `failed`, always carrying the EXIT suffix. -/
def log_step_completion (job_id : Nat) (step : String) (exit_code : Int) : LogRec :=
  ⟨job_id, step, "STATUS", if exit_code == 0 then "success" else "failed", some exit_code⟩

/-- `Logger.log_output` as records: one LOG record per newline-separated
segment that has a non-whitespace character. -/
def log_output (job_id : Nat) (step : String) (content : String) : List LogRec :=
  ((splitOnNl content.data).filter hasNonWs).map
    (fun l => ⟨job_id, step, "LOG", String.mk l, none⟩)

/-- The Docker environment seen by one job. -/
structure JobCtx where
  pull : String → Bool
  exec : StepInfo → Int × String

/-- The step loop of `process_job`: per step, STATUS running; a failed
image pull logs ERROR, counts the step failed, marks the job failed and
`continue`s; otherwise the step runs, its output and completion are logged,
and a non-zero exit logs ERROR and `break`s.  A `ValueError` from
`extract_step_info` aborts the whole call (`.error`). -/
def runSteps (ctx : JobCtx) (job_id : Nat) (job_image : Option String) :
    List StepDef → Nat → Nat → String → List LogRec × Except String (Nat × Nat × String)
  | [], completed, failedN, status => ([], .ok (completed, failedN, status))
  | st :: rest, completed, failedN, status =>
    match extract_step_info st job_image with
    | .error e => ([], .error e)
    | .ok info =>
      let start := statusRec job_id info.name "running"
      if !ctx.pull info.image then
        let r := runSteps ctx job_id job_image rest completed (failedN + 1) "failed"
        (start :: errorRec job_id info.name ("could not acquire Docker image: " ++ info.image) :: r.1,
         r.2)
      else
        let er := ctx.exec info
        let outRecs := if er.2 == "" then [] else log_output job_id info.name er.2
        let comp := log_step_completion job_id info.name er.1
        if er.1 == 0 then
          let r := runSteps ctx job_id job_image rest (completed + 1) failedN status
          (start :: outRecs ++ comp :: r.1, r.2)
        else
          (start :: outRecs ++
            [comp, errorRec job_id info.name ("step exited with error code " ++ toString er.1)],
           .ok (completed, failedN + 1, "failed"))

/-- The result dict of `process_job`. -/
structure JobResult where
  status : String
  steps_completed : Nat
  steps_failed : Nat
  deriving DecidableEq, Repr

/-- The default (container) branch of `JobProcessor.process_job`: empty
steps fail immediately; otherwise STATUS running, the step loop, and a
final STATUS with the job's status. -/
def process_job_container (ctx : JobCtx) (job_id : Nat) (job_name : String)
    (job_image : Option String) (steps : List StepDef) :
    List LogRec × Except String JobResult :=
  if steps.isEmpty then
    ([errorRec job_id "orchestrator" ("job " ++ job_name ++ " has no steps")],
     .ok ⟨"failed", 0, 0⟩)
  else
    let head := statusRec job_id job_name "running"
    match runSteps ctx job_id job_image steps 0 0 "success" with
    | (recs, .error e) => (head :: recs, .error e)
    | (recs, .ok r) =>
      (head :: recs ++ [statusRec job_id job_name r.2.2], .ok ⟨r.2.2, r.1, r.2.1⟩)

/-- The steps whose image pull succeeded and that the loop actually ran,
paired with their exit codes, in order, stopping after the first non-zero
exit.  This is the trace `runSteps` writes completion records for. -/
def execTrace (ctx : JobCtx) (job_image : Option String) : List StepDef → List (String × Int)
  | [] => []
  | st :: rest =>
    match extract_step_info st job_image with
    | .error _ => []
    | .ok info =>
      if !ctx.pull info.image then execTrace ctx job_image rest
      else
        let er := ctx.exec info
        if er.1 == 0 then (info.name, er.1) :: execTrace ctx job_image rest
        else [(info.name, er.1)]

/-! ## Theorems: group scheduling (C1, C5, C10) -/

def isSuccessT : GTask → Bool
  | (_, .result s) => s == "success"
  | _ => false

theorem isSuccessT_result (nec : Bool) (s : String) :
    isSuccessT (nec, .result s) = (s == "success") := rfl

theorem isSuccessT_cancelledErr (nec : Bool) : isSuccessT (nec, .cancelledErr) = false := rfl

theorem isSuccessT_exc (nec : Bool) : isSuccessT (nec, .exc) = false := rfl

theorem isSuccessT_iff (t : GTask) : isSuccessT t = true ↔ t.2 = ChildOutcome.result "success" := by
  obtain ⟨nec, oc⟩ := t
  cases oc with
  | result s =>
    simp only [isSuccessT, beq_iff_eq]
    constructor
    · intro h; rw [h]
    · intro h; cases h; rfl
  | cancelledErr => simp [isSuccessT]
  | exc => simp [isSuccessT]

theorem groupStep_snd_nil (s : GroupAgg × List GTask) (t : GTask) :
    (groupStep [] s t).2 = s.2 := by
  obtain ⟨agg, canc⟩ := s
  obtain ⟨nec, oc⟩ := t
  cases oc with
  | result st =>
    by_cases hs : st = "success"
    · simp [groupStep, hs]
    · cases nec <;> simp [groupStep, hs]
  | cancelledErr => cases nec <;> simp [groupStep]
  | exc => cases nec <;> simp [groupStep]

theorem foldl_groupStep_snd_nil (tasks : List GTask) (s : GroupAgg × List GTask) :
    (tasks.foldl (groupStep []) s).2 = s.2 := by
  induction tasks generalizing s with
  | nil => rfl
  | cons t ts ih => rw [List.foldl_cons, ih, groupStep_snd_nil]

theorem foldl_groupStep_completed (pending : List GTask) (tasks : List GTask)
    (ac af : Nat) (as : String) (canc : List GTask) :
    (tasks.foldl (groupStep pending) (⟨ac, af, as⟩, canc)).1.completed
      = ac + tasks.countP isSuccessT := by
  induction tasks generalizing ac af as canc with
  | nil => simp
  | cons t ts ih =>
    obtain ⟨nec, oc⟩ := t
    cases oc with
    | result st =>
      by_cases hs : st = "success"
      · simp [groupStep, hs, List.countP_cons, isSuccessT_result, ih]
        omega
      · cases nec <;>
          simp [groupStep, hs, List.countP_cons, isSuccessT_result, ih]
    | cancelledErr =>
      cases nec <;> simp [groupStep, List.countP_cons, isSuccessT_cancelledErr, ih]
    | exc =>
      cases nec <;> simp [groupStep, List.countP_cons, isSuccessT_exc, ih]

theorem foldl_groupStep_failed (pending : List GTask) (tasks : List GTask)
    (ac af : Nat) (as : String) (canc : List GTask) :
    (tasks.foldl (groupStep pending) (⟨ac, af, as⟩, canc)).1.failed
      = af + tasks.countP (fun t => !isSuccessT t) := by
  induction tasks generalizing ac af as canc with
  | nil => simp
  | cons t ts ih =>
    obtain ⟨nec, oc⟩ := t
    cases oc with
    | result st =>
      by_cases hs : st = "success"
      · simp [groupStep, hs, List.countP_cons, isSuccessT_result, ih]
      · cases nec <;>
          simp [groupStep, hs, List.countP_cons, isSuccessT_result, ih] <;> omega
    | cancelledErr =>
      cases nec <;>
        simp [groupStep, List.countP_cons, isSuccessT_cancelledErr, ih] <;> omega
    | exc =>
      cases nec <;> simp [groupStep, List.countP_cons, isSuccessT_exc, ih] <;> omega

theorem foldl_groupStep_status_keep (pending : List GTask) (tasks : List GTask)
    (ac af : Nat) (as : String) (canc : List GTask)
    (h : tasks.any (fun t => t.1 && !isSuccessT t) = false) :
    (tasks.foldl (groupStep pending) (⟨ac, af, as⟩, canc)).1.status = as := by
  induction tasks generalizing ac af as canc with
  | nil => rfl
  | cons t ts ih =>
    obtain ⟨nec, oc⟩ := t
    simp only [List.any_cons, Bool.or_eq_false_iff] at h
    cases oc with
    | result st =>
      by_cases hs : st = "success"
      · simp only [List.foldl_cons]
        have hg : groupStep pending (⟨⟨ac, af, as⟩, canc⟩) (nec, .result st)
            = (⟨ac + 1, af, as⟩, canc) := by simp [groupStep, hs]
        rw [hg]; exact ih _ _ _ _ h.2
      · cases nec with
        | true =>
          exfalso
          have := h.1
          simp [isSuccessT_result, hs] at this
        | false =>
          simp only [List.foldl_cons]
          have hg : groupStep pending (⟨⟨ac, af, as⟩, canc⟩) (false, .result st)
              = (⟨ac, af + 1, as⟩, canc) := by simp [groupStep, hs]
          rw [hg]; exact ih _ _ _ _ h.2
    | cancelledErr =>
      cases nec with
      | true =>
        exfalso
        have := h.1
        simp [isSuccessT_cancelledErr] at this
      | false =>
        simp only [List.foldl_cons]
        have hg : groupStep pending (⟨⟨ac, af, as⟩, canc⟩) (false, .cancelledErr)
            = (⟨ac, af + 1, as⟩, canc) := by simp [groupStep]
        rw [hg]; exact ih _ _ _ _ h.2
    | exc =>
      cases nec with
      | true =>
        exfalso
        have := h.1
        simp [isSuccessT_exc] at this
      | false =>
        simp only [List.foldl_cons]
        have hg : groupStep pending (⟨⟨ac, af, as⟩, canc⟩) (false, .exc)
            = (⟨ac, af + 1, as⟩, canc) := by simp [groupStep]
        rw [hg]; exact ih _ _ _ _ h.2

theorem foldl_groupStep_status_fail (pending : List GTask) (tasks : List GTask)
    (ac af : Nat) (as : String) (canc : List GTask)
    (h : tasks.any (fun t => t.1 && !isSuccessT t) = true) :
    (tasks.foldl (groupStep pending) (⟨ac, af, as⟩, canc)).1.status = "failed" := by
  induction tasks generalizing ac af as canc with
  | nil => simp at h
  | cons t ts ih =>
    obtain ⟨nec, oc⟩ := t
    simp only [List.any_cons, Bool.or_eq_true] at h
    simp only [List.foldl_cons]
    rcases hgs : groupStep pending (⟨⟨ac, af, as⟩, canc⟩) (nec, oc) with ⟨⟨ac2, af2, as2⟩, canc2⟩
    by_cases hts : ts.any (fun t => t.1 && !isSuccessT t) = true
    · exact ih _ _ _ _ hts
    · rw [Bool.not_eq_true] at hts
      rw [foldl_groupStep_status_keep _ _ _ _ _ _ hts]
      -- the head task must be the necessary failure; show as2 = "failed"
      rcases h with h1 | h1
      · have h1' : nec = true ∧ (!isSuccessT (nec, oc)) = true := by
          simpa using h1
        have hnec : nec = true := h1'.1
        have hns : isSuccessT (nec, oc) = false := by
          have := h1'.2
          cases hx : isSuccessT (nec, oc)
          · rfl
          · rw [hx] at this; exact absurd this (by decide)
        subst hnec
        cases oc with
        | result st =>
          have hst : (st == "success") = false := by
            simpa [isSuccessT_result] using hns
          have : groupStep pending (⟨⟨ac, af, as⟩, canc⟩) (true, .result st)
              = (⟨ac, af + 1, "failed"⟩, canc ++ pending) := by
            simp [groupStep, hst]
          rw [this] at hgs
          cases hgs
          rfl
        | cancelledErr =>
          have : groupStep pending (⟨⟨ac, af, as⟩, canc⟩) (true, .cancelledErr)
              = (⟨ac, af + 1, "failed"⟩, canc) := by simp [groupStep]
          rw [this] at hgs
          cases hgs
          rfl
        | exc =>
          have : groupStep pending (⟨⟨ac, af, as⟩, canc⟩) (true, .exc)
              = (⟨ac, af + 1, "failed"⟩, canc ++ pending) := by simp [groupStep]
          rw [this] at hgs
          cases hgs
          rfl
      · rw [h1] at hts
        exact absurd hts (by decide)



theorem jobGroupRun_eq (tasks : List GTask) :
    jobGroupRun tasks = tasks.foldl (groupStep []) (⟨0, 0, "success"⟩, []) := rfl

/-- C1: the claim says a necessary child's failure makes the group cancel every
still-pending sibling immediately, before the remaining children run to
completion.  The source calls `asyncio.wait` with `return_when=ALL_COMPLETED`,
so the group resumes only after every child has completed: the pending set is
always empty, the cancel loops never cancel anything, and in the failing
scenario (a non-necessary sibling still running when a necessary child fails)
the sibling runs to completion and is counted normally. -/
theorem c1_group_awaits_all_and_cancels_none :
    (∀ tasks : List GTask,
        asyncioWaitAllCompleted tasks = (tasks, [])
        ∧ (jobGroupRun tasks).2 = [])
    ∧ jobGroupRun [(false, ChildOutcome.result "success"), (true, ChildOutcome.result "failed")]
        = (⟨1, 1, "failed"⟩, []) := by
  refine ⟨fun tasks => ⟨rfl, ?_⟩, by decide⟩
  rw [jobGroupRun_eq]
  exact foldl_groupStep_snd_nil tasks _

/-- C5: a Job Group returns status `success` iff no necessary child had a
non-success outcome; `completed`/`failed` count exactly the success and
non-success children; a child that raised an exception or was cancelled is
aggregated exactly like a child that returned status `failed`. -/
theorem c5_group_status_iff :
    ∀ tasks : List GTask,
      (((jobGroupRun tasks).1.status = "success")
          ↔ (∀ t ∈ tasks, t.1 = true → t.2 = ChildOutcome.result "success"))
      ∧ (jobGroupRun tasks).1.completed = tasks.countP isSuccessT
      ∧ (jobGroupRun tasks).1.failed = tasks.countP (fun t => !isSuccessT t)
      ∧ (∀ (pending : List GTask) (st : GroupAgg × List GTask) (nec : Bool),
          groupStep pending st (nec, ChildOutcome.exc)
            = groupStep pending st (nec, ChildOutcome.result "failed")
          ∧ (groupStep pending st (nec, ChildOutcome.cancelledErr)).1
            = (groupStep pending st (nec, ChildOutcome.result "failed")).1) := by
  intro tasks
  rw [jobGroupRun_eq]
  refine ⟨?_, by rw [foldl_groupStep_completed [] tasks 0 0 "success" []]; omega,
          by rw [foldl_groupStep_failed [] tasks 0 0 "success" []]; omega, ?_⟩
  · constructor
    · intro hst t ht hn
      by_contra hne
      have hf : isSuccessT t = false := by
        cases hx : isSuccessT t
        · rfl
        · exact absurd (isSuccessT_iff t |>.mp hx) hne
      have hany : tasks.any (fun t => t.1 && !isSuccessT t) = true :=
        List.any_eq_true.mpr ⟨t, ht, by rw [hn, hf]; rfl⟩
      rw [foldl_groupStep_status_fail [] tasks 0 0 "success" [] hany] at hst
      exact absurd hst (by decide)
    · intro hall
      have hany : tasks.any (fun t => t.1 && !isSuccessT t) = false := by
        cases hx : tasks.any (fun t => t.1 && !isSuccessT t)
        · rfl
        · obtain ⟨t, ht, hf⟩ := List.any_eq_true.mp hx
          have hf' : t.1 = true ∧ (!isSuccessT t) = true := by simpa using hf
          have := hall t ht hf'.1
          rw [← isSuccessT_iff] at this
          rw [this] at hf'
          exact absurd hf'.2 (by decide)
      exact foldl_groupStep_status_keep [] tasks 0 0 "success" [] hany
  · intro pending st nec
    obtain ⟨agg, canc⟩ := st
    cases nec <;> constructor <;> simp [groupStep]

/-- C10 (amended): a `job_groups` entry whose name does not resolve to an
existing job of type `job_group` is silently skipped: no child task is
created for it regardless of `is_necessary`, and erasing it from the entry
list leaves the group's result unchanged — it contributes to neither the
completed nor the failed count.  But a group whose only entry is such a
dangling reference builds an empty task set, and `asyncio.wait` on an
empty set raises `ValueError`: the executor raises instead of returning
`success` with `completed = 0` and `failed = 0`. -/
theorem c10_dangling_group_entry (p : PipelineConfig) (n : String) (nec : Bool)
    (rest : List GroupEntry) (h : isJobGroupCfg (p.get_job n) = false) :
    taskForGroupEntry p (GroupEntry.map (some n) nec) = none
    ∧ taskForGroupEntry p (GroupEntry.str n) = none
    ∧ buildGroupTasks p (GroupEntry.map (some n) nec :: rest) = buildGroupTasks p rest
    ∧ buildGroupTasks p (GroupEntry.str n :: rest) = buildGroupTasks p rest
    ∧ (∀ (oracle : Option String × Bool → ChildOutcome)
          (jobsL groupsL : List GroupEntry),
        jobGroupExecute p oracle jobsL (GroupEntry.map (some n) nec :: groupsL)
          = jobGroupExecute p oracle jobsL groupsL)
    ∧ ∀ oracle : Option String × Bool → ChildOutcome,
        jobGroupExecute p oracle [] [GroupEntry.map (some n) nec]
          = .error "ValueError: Set of Tasks/Futures is empty." := by
  have h1 : taskForGroupEntry p (GroupEntry.map (some n) nec) = none := by
    simp [taskForGroupEntry, h]
  have h2 : taskForGroupEntry p (GroupEntry.str n) = none := by
    simp [taskForGroupEntry, h]
  have hbuild : ∀ es : List GroupEntry,
      buildGroupTasks p (GroupEntry.map (some n) nec :: es) = buildGroupTasks p es :=
    fun es => by simp [buildGroupTasks, h1]
  refine ⟨h1, h2, hbuild rest, ?_, ?_, ?_⟩
  · simp [buildGroupTasks, h2]
  · intro oracle jobsL groupsL
    simp only [jobGroupExecute, hbuild groupsL]
  · intro oracle
    simp [jobGroupExecute, buildJobTasks, buildGroupTasks, h1,
      asyncioWaitChecked]

/-- C10 counterexample: a group whose only entry is a dangling reference
raises `ValueError` from `asyncio.wait` on the empty task set, instead of
returning `success` with `completed = 0` and `failed = 0` as claimed. -/
theorem c10_counterexample :
    jobGroupExecute ⟨YVal.str "p", [("a", YVal.map [("image", YVal.str "alpine")])]⟩
        (fun _ => ChildOutcome.result "failed") [] [GroupEntry.map (some "ghost") true]
      = .error "ValueError: Set of Tasks/Futures is empty." := by rfl

/-- Witness for C10 at a concrete pipeline: the dangling entry is skipped
(it changes nothing next to a real `jobs` entry) and the dangling-only
group raises. -/
theorem c10_witness :
    isJobGroupCfg (PipelineConfig.get_job ⟨YVal.str "p", [("a", YVal.map [("image", YVal.str "alpine")])]⟩ "ghost") = false
    ∧ jobGroupExecute ⟨YVal.str "p", [("a", YVal.map [("image", YVal.str "alpine")])]⟩
        (fun _ => ChildOutcome.result "success") [GroupEntry.str "a"]
        [GroupEntry.map (some "ghost") true]
        = jobGroupExecute ⟨YVal.str "p", [("a", YVal.map [("image", YVal.str "alpine")])]⟩
            (fun _ => ChildOutcome.result "success") [GroupEntry.str "a"] []
    ∧ jobGroupExecute ⟨YVal.str "p", [("a", YVal.map [("image", YVal.str "alpine")])]⟩
        (fun _ => ChildOutcome.result "success") [] [GroupEntry.map (some "ghost") true]
        = .error "ValueError: Set of Tasks/Futures is empty." :=
  ⟨by decide,
   (c10_dangling_group_entry ⟨YVal.str "p", [("a", YVal.map [("image", YVal.str "alpine")])]⟩
      "ghost" true [] (by decide)).2.2.2.2.1 _ [GroupEntry.str "a"] [],
   (c10_dangling_group_entry ⟨YVal.str "p", [("a", YVal.map [("image", YVal.str "alpine")])]⟩
      "ghost" true [] (by decide)).2.2.2.2.2 _⟩

/-! ## Theorems: container job steps (C2, C4) -/

theorem runSteps_nil (ctx : JobCtx) (job_id : Nat) (job_image : Option String)
    (completed failedN : Nat) (status : String) :
    runSteps ctx job_id job_image [] completed failedN status
      = ([], .ok (completed, failedN, status)) := rfl

theorem runSteps_status_failed_persists (ctx : JobCtx) (job_id : Nat)
    (job_image : Option String) (steps : List StepDef) :
    ∀ (completed failedN : Nat) (r : Nat × Nat × String),
      (runSteps ctx job_id job_image steps completed failedN "failed").2 = .ok r →
      r.2.2 = "failed" := by
  induction steps with
  | nil =>
    intro completed failedN r h
    rw [runSteps_nil] at h
    simp only [Except.ok.injEq] at h
    rw [← h]
  | cons st rest ih =>
    intro completed failedN r h
    simp only [runSteps] at h
    rcases hext : extract_step_info st job_image with e | info <;> rw [hext] at h
    · simp at h
    · simp only at h
      by_cases hp : ctx.pull info.image <;> simp only [hp] at h
      · by_cases he : (ctx.exec info).1 == 0 <;> simp only [he] at h
        · simp only [Bool.not_true, Bool.false_eq_true, if_false, if_true] at h
          exact ih _ _ _ h
        · simp only [Bool.not_true, Bool.false_eq_true, if_false] at h
          simp only [Except.ok.injEq] at h
          rw [← h]
      · simp only [Bool.not_false, if_true] at h
        exact ih _ _ _ h

theorem log_output_no_exit (jid : Nat) (st content : String) :
    (log_output jid st content).filter (fun rc => rc.exit.isSome) = [] := by
  simp [log_output, List.filter_map, Function.comp]

theorem runSteps_filter_exit (ctx : JobCtx) (job_id : Nat) (job_image : Option String)
    (steps : List StepDef) :
    ∀ (completed failedN : Nat) (status : String),
      (runSteps ctx job_id job_image steps completed failedN status).1.filter
          (fun rc => rc.exit.isSome)
        = (execTrace ctx job_image steps).map
            (fun pr => log_step_completion job_id pr.1 pr.2) := by
  induction steps with
  | nil => intro c f s; simp [runSteps_nil, execTrace]
  | cons st rest ih =>
    intro c f s
    simp only [runSteps, execTrace]
    rcases hext : extract_step_info st job_image with e | info <;> simp only [hext]
    · simp
    · by_cases hp : ctx.pull info.image <;> simp only [hp]
      · by_cases he : (ctx.exec info).1 == 0 <;> simp only [he]
        · simp only [Bool.not_true, Bool.false_eq_true, if_false, if_true,
            List.filter_cons, List.filter_append, List.map_cons]
          by_cases hout : (ctx.exec info).2 == ""
          · simp [hout, statusRec, log_step_completion, ih]
          · simp [hout, statusRec, log_step_completion, log_output_no_exit, ih]
        · simp only [Bool.not_true, Bool.false_eq_true, if_false,
            List.filter_cons, List.filter_append, List.map_cons, List.map_nil]
          by_cases hout : (ctx.exec info).2 == ""
          · simp [hout, statusRec, errorRec, log_step_completion]
          · simp [hout, statusRec, errorRec, log_step_completion, log_output_no_exit]
      · simp only [Bool.not_false, if_true, List.filter_cons]
        simp [statusRec, errorRec, ih]



/-- C2 (amended): when a step's image cannot be acquired, the step writes a
diagnostic ERROR line, is counted failed and makes the job's final status
`failed` (whenever the loop completes without an orchestration exception) —
but, contrary to the claim, the job does not stop: the loop continues with
the remaining steps, and no exit code is recorded for the failed step. -/
theorem c2_image_pull_failure_continues (ctx : JobCtx) (job_id : Nat)
    (job_image : Option String) (st : StepDef) (rest : List StepDef)
    (completed failedN : Nat) (status : String) (info : StepInfo)
    (hext : extract_step_info st job_image = .ok info)
    (hp : ctx.pull info.image = false) :
    runSteps ctx job_id job_image (st :: rest) completed failedN status
      = (statusRec job_id info.name "running"
          :: errorRec job_id info.name ("could not acquire Docker image: " ++ info.image)
          :: (runSteps ctx job_id job_image rest completed (failedN + 1) "failed").1,
         (runSteps ctx job_id job_image rest completed (failedN + 1) "failed").2)
    ∧ ∀ r : Nat × Nat × String,
        (runSteps ctx job_id job_image rest completed (failedN + 1) "failed").2 = .ok r
        → r.2.2 = "failed" := by
  constructor
  · simp only [runSteps, hext, hp, Bool.not_false, if_true]
  · exact runSteps_status_failed_persists ctx job_id job_image rest completed (failedN + 1)

/-- Witness for C2 at a concrete one-step job whose image pull fails. -/
theorem c2_witness :
    runSteps ⟨fun _ => false, fun _ => (0, "")⟩ 1 none
        [⟨some "s1", some "badimg", some "true", []⟩] 0 0 "success"
      = ([statusRec 1 "s1" "running",
          errorRec 1 "s1" "could not acquire Docker image: badimg"],
         .ok (0, 1, "failed")) := by
  have h := c2_image_pull_failure_continues ⟨fun _ => false, fun _ => (0, "")⟩ 1 none
      ⟨some "s1", some "badimg", some "true", []⟩ [] 0 0 "success"
      ⟨"s1", "badimg", "true", []⟩ rfl rfl
  rw [h.1]
  rfl

/-- C2 counterexample: a two-step job whose first step's image is
unavailable still dispatches and completes its second step
(`statusRec "s2" running`, a completion record for `s2`, and
`steps_completed = 1`), refuting "no subsequent step is executed". -/
theorem c2_counterexample :
    process_job_container
        ⟨fun img => !(img == "badimg"), fun _ => (0, "")⟩ 1 "jobA" none
        [⟨some "s1", some "badimg", some "true", []⟩,
         ⟨some "s2", some "okimg", some "true", []⟩]
      = ([statusRec 1 "jobA" "running",
          statusRec 1 "s1" "running",
          errorRec 1 "s1" "could not acquire Docker image: badimg",
          statusRec 1 "s2" "running",
          log_step_completion 1 "s2" 0,
          statusRec 1 "jobA" "failed"],
         .ok ⟨"failed", 1, 1⟩) := by rfl

/-- C4 (amended): the EXIT-suffixed records a container job writes are
exactly one per dispatched step whose image was acquired, in dispatch order
up to the first failing step — with status `success` iff the exit code is 0.
A dispatched step whose image acquisition fails gets no EXIT record. -/
theorem c4_exit_lines (ctx : JobCtx) (job_id : Nat) (job_name : String)
    (job_image : Option String) (steps : List StepDef) :
    ((process_job_container ctx job_id job_name job_image steps).1.filter
        (fun rc => rc.exit.isSome)
      = (execTrace ctx job_image steps).map
          (fun pr => log_step_completion job_id pr.1 pr.2))
    ∧ ∀ (step : String) (ec : Int),
        (log_step_completion job_id step ec).kind = "STATUS"
        ∧ (log_step_completion job_id step ec).exit = some ec
        ∧ ((log_step_completion job_id step ec).content = "success" ↔ ec = 0) := by
  constructor
  · by_cases hemp : steps.isEmpty
    · have : steps = [] := by
        cases steps
        · rfl
        · simp at hemp
      subst this
      simp [process_job_container, execTrace, errorRec]
    · have hfilters := runSteps_filter_exit ctx job_id job_image steps 0 0 "success"
      rcases hrun : runSteps ctx job_id job_image steps 0 0 "success" with ⟨recs, res⟩
      rw [hrun] at hfilters
      cases res with
      | error e =>
        simp only [process_job_container, hemp, if_false, hrun]
        simpa [statusRec] using hfilters
      | ok r =>
        simp only [process_job_container, hemp, if_false, hrun]
        simpa [statusRec] using hfilters
  · intro step ec
    refine ⟨rfl, rfl, ?_⟩
    by_cases he : ec = 0
    · simp [log_step_completion, he]
    · have : (ec == 0) = false := by simpa using he
      simp [log_step_completion, this, he]

/-- C4 counterexample: a dispatched step whose image acquisition fails
produces zero EXIT-carrying STATUS lines, not exactly one. -/
theorem c4_counterexample :
    process_job_container ⟨fun _ => false, fun _ => (0, "")⟩ 2 "jobB" (some "img")
        [⟨some "s1", none, some "true", []⟩]
      = ([statusRec 2 "jobB" "running",
          statusRec 2 "s1" "running",
          errorRec 2 "s1" "could not acquire Docker image: img",
          statusRec 2 "jobB" "failed"],
         .ok ⟨"failed", 0, 1⟩)
    ∧ ((process_job_container ⟨fun _ => false, fun _ => (0, "")⟩ 2 "jobB" (some "img")
        [⟨some "s1", none, some "true", []⟩]).1.filter
          (fun rc => rc.exit.isSome)).length = 0 := ⟨rfl, rfl⟩

/-! ## Theorems: logger queries, parser, callback decoding, memory limits
(C3, C6, C7, C8, C9) -/

/-- C3: the claim says `getRunLog(R)` selects lines containing `JOB:<R> `
(with a trailing space) so runs 1 and 10 never mix.  The source matches the
substring `JOB:<R>` without the trailing space, so `get_job_logs` for run 1
also returns run 10's lines, and `get_job_status` for run 1 reports a STATUS
written for run 10. -/
theorem c3_crossrun_contamination :
    get_job_logs
        [format_log_line "2024-01-01 10:00:00" 1 "build" "STATUS" "success" none,
         format_log_line "2024-01-01 10:00:01" 10 "deploy" "STATUS" "failed" none] 1
      = format_log_line "2024-01-01 10:00:00" 1 "build" "STATUS" "success" none
          ++ "\n" ++ format_log_line "2024-01-01 10:00:01" 10 "deploy" "STATUS" "failed" none
    ∧ get_job_status
        [format_log_line "2024-01-01 10:00:00" 1 "build" "STATUS" "success" none,
         format_log_line "2024-01-01 10:00:01" 10 "deploy" "STATUS" "failed" none] 1
      = some "failed" := by
  constructor
  · decide
  · decide

/-- C7: the claim says parse rejects unresolved group entry names and group
reference cycles.  The source performs neither check: a manifest whose group
references itself, and one whose group references a missing job, both parse
successfully. -/
theorem c7_no_cycle_or_reference_check :
    isOk (parse (.map [("name", .str "p"),
        ("jobs", .map [("g", .map [("type", .str "job_group"),
                                   ("job_groups", .list [.str "g"])])])])) = true
    ∧ isOk (parse (.map [("name", .str "p"),
        ("jobs", .map [("h", .map [("type", .str "job_group"),
                                   ("jobs", .list [.str "missing"])])])])) = true := by
  constructor
  · rfl
  · rfl



theorem except_bind_ok {ε α β : Type} (a : α) (f : α → Except ε β) :
    (Except.ok a >>= f : Except ε β) = f a := rfl

theorem except_bind_error {ε α β : Type} (e : ε) (f : α → Except ε β) :
    (Except.error e >>= f : Except ε β) = .error e := rfl

theorem validateSteps_ok (steps : List YVal)
    (h : ∀ st ∈ steps, validateStep st = .ok ()) :
    validateSteps steps = .ok () := by
  induction steps with
  | nil => rfl
  | cons st rest ih =>
    have h1 := h st (by simp)
    simp only [validateSteps, h1, except_bind_ok]
    exact ih (fun s hs => h s (by simp [hs]))

/-- C6 (amended): for a container job with no job-level image, parse fails
on the image rule iff NO step supplies an image; one step with an `image`
key satisfies the rule even when other steps lack images (contrary to the
claim's "every step"), and a job-level image always satisfies it. -/
theorem c6_image_rule (nameStr jobName img : String) (steps : List YVal)
    (h : ∀ st ∈ steps, validateStep st = .ok ()) :
    (isOk (parse (.map [("name", .str nameStr),
        ("jobs", .map [(jobName, .map [("steps", .list steps)])])])) = true
      ↔ steps.any stepHasImage = true)
    ∧ isOk (parse (.map [("name", .str nameStr),
        ("jobs", .map [(jobName, .map [("image", .str img),
                                       ("steps", .list steps)])])])) = true := by
  constructor
  · by_cases han : steps.any stepHasImage
    · have hv := validateSteps_ok steps h
      simp [parse, validateJobs, validateJob, validateContainer, containsKey,
        lookupY, yEqStr, han, hv, except_bind_ok, isOk, pure, Except.pure]
    · rw [Bool.not_eq_true] at han
      simp [parse, validateJobs, validateJob, validateContainer, containsKey,
        lookupY, yEqStr, han, except_bind_error, isOk]
  · have hv := validateSteps_ok steps h
    simp [parse, validateJobs, validateJob, validateContainer, containsKey,
      lookupY, yEqStr, hv, except_bind_ok, isOk, pure, Except.pure]

/-- C6 counterexample: a job with no job-level image whose second step lacks
its own image parses successfully because the first step has one. -/
theorem c6_counterexample :
    isOk (parse (.map [("name", .str "p"),
        ("jobs", .map [("j", .map [("steps", .list
          [.map [("image", .str "alpine"), ("run", .str "true")],
           .map [("run", .str "false")]])])])])) = true := by rfl



theorem hasPrefixL_exists : ∀ (p l : List Char), hasPrefixL l p = true → ∃ t, l = p ++ t := by
  intro p
  induction p with
  | nil => exact fun l _ => ⟨l, rfl⟩
  | cons c cs ih =>
    intro l h
    cases l with
    | nil => simp [hasPrefixL] at h
    | cons x xs =>
      simp only [hasPrefixL, Bool.and_eq_true, beq_iff_eq] at h
      obtain ⟨t, ht⟩ := ih xs h.2
      exact ⟨t, by rw [h.1, ht]; rfl⟩

theorem breakAtChar_of_prefix (pre : List Char) (hm : '_' ∉ pre) (s : List Char) :
    breakAtChar '_' (pre ++ '_' :: s) = some (pre, s) := by
  induction pre with
  | nil => simp [breakAtChar]
  | cons c cs ih =>
    have hc : (c == '_') = false := by
      have : c ≠ '_' := fun he => hm (he ▸ List.mem_cons_self c cs)
      simp [this]
    have hm' : '_' ∉ cs := fun hmem => hm (List.mem_cons_of_mem c hmem)
    simp [breakAtChar, hc, ih hm']

/-- C8 (amended): every callback either (a) returns `None` without raising
(unmatched registration with a well-formed run-ID token, too few tokens, or
an unrecognised prefix), (b) returns the decoded action/run-ID/job-name
triple — first underscore token the action, second the run ID, remainder
(which may contain underscores) the job name — when a registration matches,
or (c) raises `ValueError` when a `confirm_`/`cancel_` datum's second token
is not an integer, contrary to the claim's "never raises". -/
theorem c8_callback_decoding (pending : List String) (data : String) :
    handle_callback pending data = .ok none
    ∨ (∃ r : CallbackResult, ∃ tok : List Char,
        handle_callback pending data = .ok (some r)
        ∧ (r.action = "confirm" ∨ r.action = "cancel")
        ∧ pySplit2 '_' data.data = [r.action.data, tok, r.job_name.data]
        ∧ pyIntL tok = some r.job_id
        ∧ pending.contains (toString r.job_id ++ "_" ++ r.job_name) = true)
    ∨ (∃ a tok rest : List Char,
        pySplit2 '_' data.data = [a, tok, rest]
        ∧ pyIntL tok = none
        ∧ (pyStartsWith data "confirm_" = true ∨ pyStartsWith data "cancel_" = true)
        ∧ handle_callback pending data = .error "ValueError: invalid literal for int") := by
  by_cases hc : pyStartsWith data "confirm_" = true
  · obtain ⟨t, ht⟩ := hasPrefixL_exists "confirm_".data data.data hc
    have ht' : data.data = "confirm".data ++ '_' :: t := ht
    have hbreak : breakAtChar '_' data.data = some ("confirm".data, t) := by
      rw [ht']; exact breakAtChar_of_prefix "confirm".data (by decide) t
    rcases h2 : breakAtChar '_' t with _ | ⟨b, r2⟩
    · left
      simp [handle_callback, hc, pySplit2, hbreak, h2]
    · rcases h3 : pyIntL b with _ | jid
      · right; right
        refine ⟨"confirm".data, b, r2, ?_, h3, Or.inl hc, ?_⟩
        · simp [pySplit2, hbreak, h2]
        · simp [handle_callback, hc, pySplit2, hbreak, h2, h3]
      · by_cases hkey : pending.contains (toString jid ++ "_" ++ String.mk r2) = true
        · right; left
          refine ⟨⟨"confirm", jid, String.mk r2⟩, b, ?_, Or.inl rfl, ?_, h3, hkey⟩
          · simp [handle_callback, hc, pySplit2, hbreak, h2, h3]
            simpa using hkey
          · simp [pySplit2, hbreak, h2]
        · left
          simp [handle_callback, hc, pySplit2, hbreak, h2, h3]
          simpa using hkey
  · by_cases hcan : pyStartsWith data "cancel_" = true
    · obtain ⟨t, ht⟩ := hasPrefixL_exists "cancel_".data data.data hcan
      have ht' : data.data = "cancel".data ++ '_' :: t := ht
      have hbreak : breakAtChar '_' data.data = some ("cancel".data, t) := by
        rw [ht']; exact breakAtChar_of_prefix "cancel".data (by decide) t
      rcases h2 : breakAtChar '_' t with _ | ⟨b, r2⟩
      · left
        simp [handle_callback, hc, hcan, pySplit2, hbreak, h2]
      · rcases h3 : pyIntL b with _ | jid
        · right; right
          refine ⟨"cancel".data, b, r2, ?_, h3, Or.inr hcan, ?_⟩
          · simp [pySplit2, hbreak, h2]
          · simp [handle_callback, hc, hcan, pySplit2, hbreak, h2, h3]
        · by_cases hkey : pending.contains (toString jid ++ "_" ++ String.mk r2) = true
          · right; left
            refine ⟨⟨"cancel", jid, String.mk r2⟩, b, ?_, Or.inr rfl, ?_, h3, hkey⟩
            · simp [handle_callback, hc, hcan, pySplit2, hbreak, h2, h3]
              simpa using hkey
            · simp [pySplit2, hbreak, h2]
          · left
            simp [handle_callback, hc, hcan, pySplit2, hbreak, h2, h3]
            simpa using hkey
    · left
      simp [handle_callback, hc, hcan]

/-- C8 counterexample: with no registrations, `confirm_x_y` raises
`ValueError` from `int("x")` instead of returning `None`. -/
theorem c8_counterexample :
    handle_callback [] "confirm_x_y" = .error "ValueError: invalid literal for int" := by rfl



theorem digit_not_ws (c : Char) (h : isDigitC c = true) : c.isWhitespace = false := by
  cases hw : c.isWhitespace
  · rfl
  · exfalso
    have hw' := hw
    simp only [Char.isWhitespace, Bool.or_eq_true, decide_eq_true_eq] at hw'
    rcases hw' with ((h1 | h1) | h1) | h1 <;> subst h1 <;> exact absurd h (by decide)

theorem digit_toLower (c : Char) (h : isDigitC c = true) : asciiToLower c = c := by
  simp only [isDigitC, Bool.and_eq_true, decide_eq_true_eq] at h
  unfold asciiToLower
  rw [if_neg]
  rintro ⟨ha, _⟩
  omega

theorem dropWhile_eq_self_of (p : Char → Bool) (l : List Char)
    (h : ∀ c ∈ l, p c = false) : l.dropWhile p = l := by
  cases l with
  | nil => rfl
  | cons c cs => simp [List.dropWhile_cons, h c (by simp)]

theorem pyStrip_eq_self (l : List Char) (h : ∀ c ∈ l, c.isWhitespace = false) :
    pyStrip l = l := by
  unfold pyStrip
  rw [dropWhile_eq_self_of _ _ h,
      dropWhile_eq_self_of _ _ (fun c hc => h c (List.mem_reverse.mp hc)),
      List.reverse_reverse]

theorem pyIntL_digits (ds : List Char) (h1 : ds ≠ []) (h2 : allDigits ds = true) :
    pyIntL ds = some (Int.ofNat (digitsToNat ds)) := by
  have hds : ∀ c ∈ ds, isDigitC c = true := fun c hc =>
    List.all_eq_true.mp h2 c hc
  have hws : ∀ c ∈ ds, c.isWhitespace = false := fun c hc =>
    digit_not_ws c (hds c hc)
  unfold pyIntL
  rw [pyStrip_eq_self ds hws]
  cases ds with
  | nil => exact absurd rfl h1
  | cons c cs =>
    have hc : isDigitC c = true := hds c (by simp)
    have hcp : (c == '+') = false := by
      have : c ≠ '+' := fun he => by rw [he] at hc; exact absurd hc (by decide)
      simp [this]
    have hcm : (c == '-') = false := by
      have : c ≠ '-' := fun he => by rw [he] at hc; exact absurd hc (by decide)
      simp [this]
    simp [hcp, hcm, h2]

theorem map_asciiToLower_digits (ds : List Char) (h : ∀ c ∈ ds, isDigitC c = true) :
    ds.map asciiToLower = ds := by
  induction ds with
  | nil => rfl
  | cons c cs ih =>
    rw [List.map_cons, digit_toLower c (h c (by simp)),
        ih (fun x hx => h x (by simp [hx]))]


theorem pyEndsWith_concat (ds : List Char) (c : Char) :
    pyEndsWith (ds ++ [c]) [c] = true := by
  simp [pyEndsWith, hasPrefixL, List.reverse_append]

theorem pyEndsWith_concat_ne (ds : List Char) (d c : Char) (hne : (d == c) = false) :
    pyEndsWith (ds ++ [d]) [c] = false := by
  simp [pyEndsWith, List.reverse_append, hasPrefixL, hne]

theorem pyEndsWith_digits_single (ds : List Char) (c : Char)
    (h1 : ds ≠ []) (h2 : ∀ x ∈ ds, isDigitC x = true) (hc : isDigitC c = false) :
    pyEndsWith ds [c] = false := by
  rcases hrev : ds.reverse with _ | ⟨d, rest⟩
  · exact absurd (by simpa using congrArg List.reverse hrev) h1
  · have hd : d ∈ ds := List.mem_reverse.mp (by rw [hrev]; simp)
    have hdig := h2 d hd
    have hne : (d == c) = false := by
      have : d ≠ c := fun he => by rw [he] at hdig; rw [hdig] at hc; cases hc
      simp [this]
    simp [pyEndsWith, hrev, hasPrefixL, hne]

theorem strip_lower_digits_concat (ds : List Char) (c : Char)
    (h2 : ∀ x ∈ ds, isDigitC x = true)
    (hlc : asciiToLower c = c) (hwc : c.isWhitespace = false) :
    pyStrip ((String.mk (ds ++ [c])).data.map asciiToLower) = ds ++ [c] := by
  have hmap : (ds ++ [c]).map asciiToLower = ds ++ [c] := by
    rw [List.map_append, map_asciiToLower_digits ds h2, List.map_cons, List.map_nil, hlc]
  show pyStrip ((ds ++ [c]).map asciiToLower) = ds ++ [c]
  rw [hmap]
  refine pyStrip_eq_self _ (fun x hx => ?_)
  rcases List.mem_append.mp hx with hx | hx
  · exact digit_not_ws x (h2 x hx)
  · rw [List.mem_singleton.mp hx]; exact hwc

/-- C9: for every digit string n, the parsed byte value is n*1024 for "nk",
n*1024^2 for "nm", n*1024^3 for "ng", and the raw integer n without a
suffix (base-1024, lowercase-suffixed parsing). -/
theorem c9_memory_limit (ds : List Char) (h1 : ds ≠ [])
    (h2 : allDigits ds = true) :
    convert_memory_limit (String.mk (ds ++ ['k']))
        = some (Int.ofNat (digitsToNat ds) * 1024)
    ∧ convert_memory_limit (String.mk (ds ++ ['m']))
        = some (Int.ofNat (digitsToNat ds) * (1024 * 1024))
    ∧ convert_memory_limit (String.mk (ds ++ ['g']))
        = some (Int.ofNat (digitsToNat ds) * (1024 * 1024 * 1024))
    ∧ convert_memory_limit (String.mk ds) = some (Int.ofNat (digitsToNat ds)) := by
  have hds : ∀ x ∈ ds, isDigitC x = true := fun x hx => List.all_eq_true.mp h2 x hx
  have hws : ∀ x ∈ ds, x.isWhitespace = false := fun x hx => digit_not_ws x (hds x hx)
  have hint := pyIntL_digits ds h1 h2
  refine ⟨?_, ?_, ?_, ?_⟩
  · unfold convert_memory_limit
    rw [strip_lower_digits_concat ds 'k' hds (by decide) (by decide)]
    rw [if_pos (pyEndsWith_concat ds 'k')]
    rw [List.dropLast_concat, hint]
    rfl
  · unfold convert_memory_limit
    rw [strip_lower_digits_concat ds 'm' hds (by decide) (by decide)]
    rw [if_neg (by simp [pyEndsWith_concat_ne ds 'm' 'k' (by decide)])]
    rw [if_pos (pyEndsWith_concat ds 'm')]
    rw [List.dropLast_concat, hint]
    rfl
  · unfold convert_memory_limit
    rw [strip_lower_digits_concat ds 'g' hds (by decide) (by decide)]
    rw [if_neg (by simp [pyEndsWith_concat_ne ds 'g' 'k' (by decide)])]
    rw [if_neg (by simp [pyEndsWith_concat_ne ds 'g' 'm' (by decide)])]
    rw [if_pos (pyEndsWith_concat ds 'g')]
    rw [List.dropLast_concat, hint]
    rfl
  · have hmap : ds.map asciiToLower = ds := map_asciiToLower_digits ds hds
    have hstrip : pyStrip ((String.mk ds).data.map asciiToLower) = ds := by
      show pyStrip (ds.map asciiToLower) = ds
      rw [hmap]
      exact pyStrip_eq_self ds hws
    unfold convert_memory_limit
    rw [hstrip]
    rw [if_neg (by simp [pyEndsWith_digits_single ds 'k' h1 hds (by decide)])]
    rw [if_neg (by simp [pyEndsWith_digits_single ds 'm' h1 hds (by decide)])]
    rw [if_neg (by simp [pyEndsWith_digits_single ds 'g' h1 hds (by decide)])]
    exact hint

/-- Witness for C9 at "512k"/"512m"/"512g"/"512". -/
theorem c9_witness :
    convert_memory_limit "512k" = some 524288
    ∧ convert_memory_limit "512m" = some 536870912
    ∧ convert_memory_limit "512g" = some 549755813888
    ∧ convert_memory_limit "512" = some 512 := by
  have h := c9_memory_limit ['5', '1', '2'] (by decide) (by decide)
  obtain ⟨hk, hm, hg, hr⟩ := h
  exact ⟨hk, hm, hg, hr⟩


/-- Witness for C6 at a concrete one-step manifest with a job-level image. -/
theorem c6_witness :
    isOk (parse (.map [("name", .str "p"),
        ("jobs", .map [("j", .map [("image", .str "alpine"),
          ("steps", .list [.map [("run", .str "true")]])])])])) = true :=
  (c6_image_rule "p" "j" "alpine" [.map [("run", .str "true")]]
      (fun st hst => by rw [List.mem_singleton.mp hst]; rfl)).2

end CICD
